import Mathlib

/-!
Verification of the block_data_save core (src/main.go): the statistics engine
(mean, median, two-standard-deviation band, outliers) and the chain manager
(NewBlockchain, AddBlock, markBlocksWithOutliers, calculateHash).

Modelling conventions:
* Go float64 samples and statistics are modelled as exact rationals (ℚ).
  math.Sqrt is modelled by Rat.sqrt (exact on perfect squares); every
  property proved about the band is insensitive to the approximation
  (it only uses that the square root is nonnegative).
* Go slice accesses that can panic are modelled with Except GoErr; an
  unrecovered Go panic corresponds to Except.error.
* The four goroutines launched by calculateBlockStats race on the block's
  fields (median sorts block.Values in place while the others read it, and
  the outlier goroutine reads the band fields unsynchronised).  They are
  modelled as running sequentially, to completion, in launch order, which is
  one legal serialisation: mean (over the batch as passed), then median
  (which sorts Values in place), then the band (over the now sorted values),
  then the outliers (over the sorted values with the computed band).
* time.Now is threaded as an explicit integer (Unix epoch) parameter.
-/

/-- Failure conditions observable in the model. indexOutOfRange models the Go
runtime panic raised by an out-of-bounds slice access (values[-1] in
calculateMedian). invalidInput is modelled from the spec: the InvalidInput
error kind of spec section 7; no function in src/main.go constructs it. -/
inductive GoErr where
  | indexOutOfRange
  | invalidInput
deriving DecidableEq, Repr

/-- Block struct of src/main.go (Index, Timestamp, Values, Hash, PrevHash,
Mean, Median, TwoSDLower, TwoSDUpper, Outliers).  Timestamp is modelled by
its Unix epoch value, which is the only part of it the program hashes. -/
structure Block where
  Index : Int
  Timestamp : Int
  Values : List ℚ
  Hash : String
  PrevHash : String
  Mean : ℚ
  Median : ℚ
  TwoSDLower : ℚ
  TwoSDUpper : ℚ
  Outliers : List ℚ
deriving DecidableEq, Repr

/-- Blockchain struct of src/main.go.  The mutex only serialises appends and
is dropped in this sequential model. -/
structure Blockchain where
  chain : List Block
deriving DecidableEq, Repr

/-- calculateMean of src/main.go: sum divided by length.  On the empty list Go
computes 0.0/0 = NaN; in ℚ division by zero yields 0 (the value is never used
on that path because calculateMedian panics first). -/
def calculateMean (values : List ℚ) : ℚ :=
  values.sum / (values.length : ℚ)

/-- sort.Float64s of the Go standard library: an in-place comparison sort.
Modelled by insertion sort; any comparison sort produces the same list. -/
def sortFloat64s (values : List ℚ) : List ℚ :=
  List.insertionSort (· ≤ ·) values

/-- Go slice indexing values[i] with an int index: panics (indexOutOfRange)
unless 0 ≤ i < len. -/
def goIndex (xs : List ℚ) (i : Int) : Except GoErr ℚ :=
  if h : 0 ≤ i ∧ i.toNat < xs.length then .ok (xs.get ⟨i.toNat, h.2⟩)
  else .error .indexOutOfRange

/-- Index-selection part of calculateMedian, acting on the already sorted
slice: for even n it reads values[n/2-1] and values[n/2] (values[-1] for the
empty slice, a panic), for odd n it reads values[n/2]. -/
def medianOfSorted (s : List ℚ) : Except GoErr ℚ :=
  let n : Int := s.length
  if n % 2 = 0 then do
    let a ← goIndex s (n / 2 - 1)
    let b ← goIndex s (n / 2)
    pure ((a + b) / 2)
  else goIndex s (n / 2)

/-- calculateMedian of src/main.go: sorts the slice in place (the caller's
values are reordered) and selects the middle. -/
def calculateMedian (values : List ℚ) : Except GoErr ℚ :=
  medianOfSorted (sortFloat64s values)

/-- calculateVariance of src/main.go: sum of squared deviations divided by
the count (population variance, not count-1). -/
def calculateVariance (values : List ℚ) (mean : ℚ) : ℚ :=
  (values.map (fun value => (value - mean) * (value - mean))).sum / (values.length : ℚ)

/-- math.Sqrt, modelled by the rational square root (exact on perfect
squares).  The proofs below use only that it is nonnegative, which the
float64 square root of a nonnegative argument also is. -/
def goSqrt (q : ℚ) : ℚ := Rat.sqrt q

/-- calculateTwoSDRange of src/main.go: mean ± 2·stddev with the population
standard deviation. -/
def calculateTwoSDRange (values : List ℚ) : ℚ × ℚ :=
  let mean := calculateMean values
  let variance := calculateVariance values mean
  let stdDev := goSqrt variance
  (mean - 2 * stdDev, mean + 2 * stdDev)

/-- calculateOutliers of src/main.go: the values strictly outside
[lowerBound, upperBound], in the order of the slice it is given. -/
def calculateOutliers (values : List ℚ) (lowerBound upperBound : ℚ) : List ℚ :=
  values.filter (fun value => decide (value < lowerBound ∨ upperBound < value))

/-! SHA-256 (crypto/sha256 Sum256), over byte lists, words as Nat mod 2^32. -/

/-- Word modulus of SHA-256: 2^32. -/
def w32 : Nat := 4294967296

/-- Rotate a 32-bit word right by n. -/
def rotr32 (x n : Nat) : Nat :=
  ((x >>> n) ||| (x <<< (32 - n))) % w32

/-- SHA-256 big sigma-0. -/
def shaBigSigma0 (x : Nat) : Nat := (rotr32 x 2) ^^^ (rotr32 x 13) ^^^ (rotr32 x 22)

/-- SHA-256 big sigma-1. -/
def shaBigSigma1 (x : Nat) : Nat := (rotr32 x 6) ^^^ (rotr32 x 11) ^^^ (rotr32 x 25)

/-- SHA-256 small sigma-0 (message schedule). -/
def shaSmallSigma0 (x : Nat) : Nat := (rotr32 x 7) ^^^ (rotr32 x 18) ^^^ (x >>> 3)

/-- SHA-256 small sigma-1 (message schedule). -/
def shaSmallSigma1 (x : Nat) : Nat := (rotr32 x 17) ^^^ (rotr32 x 19) ^^^ (x >>> 10)

/-- SHA-256 round constants (FIPS 180-4), written in decimal. -/
def shaK : List Nat :=
  [1116352408, 1899447441, 3049323471, 3921009573,
   961987163, 1508970993, 2453635748, 2870763221,
   3624381080, 310598401, 607225278, 1426881987,
   1925078388, 2162078206, 2614888103, 3248222580,
   3835390401, 4022224774, 264347078, 604807628,
   770255983, 1249150122, 1555081692, 1996064986,
   2554220882, 2821834349, 2952996808, 3210313671,
   3336571891, 3584528711, 113926993, 338241895,
   666307205, 773529912, 1294757372, 1396182291,
   1695183700, 1986661051, 2177026350, 2456956037,
   2730485921, 2820302411, 3259730800, 3345764771,
   3516065817, 3600352804, 4094571909, 275423344,
   430227734, 506948616, 659060556, 883997877,
   958139571, 1322822218, 1537002063, 1747873779,
   1955562222, 2024104815, 2227730452, 2361852424,
   2428436474, 2756734187, 3204031479, 3329325298]

/-- Working state of the SHA-256 compression function: eight 32-bit words. -/
structure ShaState where
  a : Nat
  b : Nat
  c : Nat
  d : Nat
  e : Nat
  f : Nat
  g : Nat
  h : Nat
deriving DecidableEq, Repr

/-- SHA-256 initial hash value (FIPS 180-4), written in decimal. -/
def shaInit : ShaState :=
  ⟨1779033703, 3144134277, 1013904242, 2773480762,
   1359893119, 2600822924, 528734635, 1541459225⟩

/-- SHA-256 choice function. -/
def shaCh (e f g : Nat) : Nat := (e &&& f) ^^^ ((e ^^^ (w32 - 1)) &&& g)

/-- SHA-256 majority function. -/
def shaMaj (a b c : Nat) : Nat := (a &&& b) ^^^ (a &&& c) ^^^ (b &&& c)

/-- One SHA-256 round; wk is the pair (message-schedule word, round constant). -/
def shaRound (st : ShaState) (wk : Nat × Nat) : ShaState :=
  let t1 := (st.h + shaBigSigma1 st.e + shaCh st.e st.f st.g + wk.2 + wk.1) % w32
  let t2 := (shaBigSigma0 st.a + shaMaj st.a st.b st.c) % w32
  ⟨(t1 + t2) % w32, st.a, st.b, st.c, (st.d + t1) % w32, st.e, st.f, st.g⟩

/-- Parse a 64-byte chunk into sixteen big-endian 32-bit words. -/
def wordsOfChunk (chunk : List Nat) : List Nat :=
  (List.range 16).map (fun i =>
    chunk.getD (4 * i) 0 * 16777216 + chunk.getD (4 * i + 1) 0 * 65536 +
    chunk.getD (4 * i + 2) 0 * 256 + chunk.getD (4 * i + 3) 0)

/-- Extend sixteen schedule words to sixty-four. -/
def shaExtend (ws : List Nat) : List Nat :=
  (List.range 48).foldl
    (fun acc _ =>
      let j := acc.length
      acc ++ [(shaSmallSigma1 (acc.getD (j - 2) 0) + acc.getD (j - 7) 0 +
               shaSmallSigma0 (acc.getD (j - 15) 0) + acc.getD (j - 16) 0) % w32])
    ws

/-- Compress one 64-byte chunk into the running state. -/
def shaCompress (st : ShaState) (chunk : List Nat) : ShaState :=
  let ws := shaExtend (wordsOfChunk chunk)
  let r := (ws.zip shaK).foldl shaRound st
  ⟨(st.a + r.a) % w32, (st.b + r.b) % w32, (st.c + r.c) % w32, (st.d + r.d) % w32,
   (st.e + r.e) % w32, (st.f + r.f) % w32, (st.g + r.g) % w32, (st.h + r.h) % w32⟩

/-- Big-endian encoding of n into k bytes. -/
def bytesBE (k n : Nat) : List Nat :=
  (List.range k).map (fun i => (n >>> (8 * (k - 1 - i))) % 256)

/-- SHA-256 padding: a 0x80 byte, zeros up to 56 mod 64, then the bit length
as eight big-endian bytes. -/
def shaPad (msg : List Nat) : List Nat :=
  msg ++ 128 :: (List.replicate ((119 - msg.length % 64) % 64) 0 ++ bytesBE 8 (8 * msg.length))

/-- Split a byte list into 64-byte chunks. -/
def toChunks (l : List Nat) : List (List Nat) :=
  if h : l = [] then []
  else l.take 64 :: toChunks (l.drop 64)
termination_by l.length
decreasing_by
  simp only [List.length_drop]
  have hp : 0 < l.length := List.length_pos.mpr h
  omega

/-- Serialise one 32-bit word as four big-endian bytes. -/
def wordBytesBE (w : Nat) : List Nat :=
  [w / 16777216 % 256, w / 65536 % 256, w / 256 % 256, w % 256]

/-- SHA-256 of a byte list: the 32-byte digest. -/
def sha256 (msg : List Nat) : List Nat :=
  let st := (toChunks (shaPad msg)).foldl shaCompress shaInit
  wordBytesBE st.a ++ wordBytesBE st.b ++ wordBytesBE st.c ++ wordBytesBE st.d ++
  wordBytesBE st.e ++ wordBytesBE st.f ++ wordBytesBE st.g ++ wordBytesBE st.h

/-- Lowercase hexadecimal alphabet. -/
def hexAlphabet : List Char := "0123456789abcdef".data

/-- Lowercase hexadecimal digit for a nibble. -/
def hexDigit (n : Nat) : Char :=
  if n < 10 then Char.ofNat (48 + n) else Char.ofNat (87 + n)

/-- hex.EncodeToString: two lowercase hex characters per byte. -/
def hexEncodeChars (bytes : List Nat) : List Char :=
  (bytes.map (fun b => [hexDigit (b / 16), hexDigit (b % 16)])).join

/-- hex.EncodeToString as a String. -/
def hexEncode (bytes : List Nat) : String :=
  ⟨hexEncodeChars bytes⟩

/-! Textual formatting used by fmt.Sprintf in calculateHash.  The digits Go
would print for a float64 are idealised by exact rational renderings; no
claim depends on the exact characters, only on the digest pipeline. -/

/-- Go %d formatting of an integer. -/
def fmtInt (i : Int) : String := toString i

/-- Left-pad a string with zeros to length k. -/
def padZeros (k : Nat) (s : String) : String :=
  String.mk (List.replicate (k - s.length) '0') ++ s

/-- Go %f formatting (six decimal places), idealised over ℚ: the value
rounded to six decimals, rendered with a fixed six-digit fraction. -/
def fmtF (q : ℚ) : String :=
  let n : Int := ⌊q * 1000000 + 1 / 2⌋
  let m : Nat := n.natAbs
  (if n < 0 then "-" else "") ++ toString (m / 1000000) ++ "." ++ padZeros 6 (toString (m % 1000000))

/-- Go %v formatting of one float64 element, idealised over ℚ. -/
def fmtVRat (q : ℚ) : String :=
  if q.den = 1 then toString q.num else toString q.num ++ "/" ++ toString q.den

/-- Go %v formatting of a []float64: elements in brackets, space separated. -/
def fmtValues (xs : List ℚ) : String :=
  "[" ++ String.intercalate " " (xs.map fmtVRat) ++ "]"

/-- UTF-8 bytes of a string (the strings hashed here are ASCII, where the
code points are the bytes). -/
def strBytes (s : String) : List Nat := s.data.map Char.toNat

/-- Data string hashed by calculateHash of src/main.go:
Sprintf of Index, Timestamp.Unix, Values, PrevHash, Mean, Median,
TwoSDLower, TwoSDUpper, Outliers, in that fixed order.  The Hash field
itself is not part of the data. -/
def blockData (block : Block) : String :=
  fmtInt block.Index ++ fmtInt block.Timestamp ++ fmtValues block.Values ++ block.PrevHash ++
  fmtF block.Mean ++ fmtF block.Median ++ fmtF block.TwoSDLower ++ fmtF block.TwoSDUpper ++
  fmtValues block.Outliers

/-- calculateHash of src/main.go: hex-encoded SHA-256 of the block data. -/
def calculateHash (block : Block) : String :=
  hexEncode (sha256 (strBytes (blockData block)))

/-! Chain manager. -/

/-- NewBlockchain of src/main.go: a chain holding only the genesis block
(index 0, no values, zero statistics, empty PrevHash), whose Hash is
computed over those zero fields. -/
def NewBlockchain (now : Int) : Blockchain :=
  let genesisBlock : Block :=
    { Index := 0, Timestamp := now, Values := [], Hash := "", PrevHash := "",
      Mean := 0, Median := 0, TwoSDLower := 0, TwoSDUpper := 0, Outliers := [] }
  { chain := [{ genesisBlock with Hash := calculateHash genesisBlock }] }

/-- markBlocksWithOutliers of src/main.go applied to one block: a block with
a non-empty outlier list has its Hash overwritten with the sentinel. -/
def markOne (block : Block) : Block :=
  if block.Outliers.length > 0 then { block with Hash := "OUTLITER_BLOCK_HASH" } else block

/-- markBlocksWithOutliers of src/main.go: overwrite the Hash of every block
whose Outliers is non-empty with the fixed sentinel string. -/
def markBlocksWithOutliers (chain : List Block) : List Block :=
  chain.map markOne

/-- Fresh block shell built at the top of AddBlock: next index, the given
timestamp and values, PrevHash from the last block, derived fields zeroed. -/
def newShell (prevBlock : Block) (now : Int) (values : List ℚ) : Block :=
  { Index := prevBlock.Index + 1, Timestamp := now, Values := values, Hash := "",
    PrevHash := prevBlock.Hash, Mean := 0, Median := 0, TwoSDLower := 0, TwoSDUpper := 0,
    Outliers := [] }

/-- calculateBlockStats of src/main.go.  The four goroutines are modelled
sequentially in launch order (see the header comment): mean over the values
as passed; median, sorting Values in place; the band over the sorted values;
the outliers over the sorted values with the computed band. -/
def calculateBlockStats (block : Block) : Except GoErr Block :=
  let afterMean := { block with Mean := calculateMean block.Values }
  let sorted := sortFloat64s afterMean.Values
  match medianOfSorted sorted with
  | .error e => .error e
  | .ok m =>
    let afterMedian := { afterMean with Values := sorted, Median := m }
    let lohi := calculateTwoSDRange afterMedian.Values
    let afterRange := { afterMedian with TwoSDLower := lohi.1, TwoSDUpper := lohi.2 }
    .ok { afterRange with
            Outliers := calculateOutliers afterRange.Values afterRange.TwoSDLower afterRange.TwoSDUpper }

/-- AddBlock of src/main.go: read the last block, build the shell, compute
the statistics, re-mark the existing chain, hash the new block, append it.
The re-marking runs before the new block is appended, so it scans only the
pre-existing blocks. -/
def AddBlock (bc : Blockchain) (now : Int) (values : List ℚ) : Except GoErr Blockchain :=
  match bc.chain.getLast? with
  | none => .error .indexOutOfRange
  | some prevBlock =>
    let newBlock := newShell prevBlock now values
    match calculateBlockStats newBlock with
    | .error e => .error e
    | .ok newBlock2 =>
      let marked := markBlocksWithOutliers bc.chain
      let newBlock3 := { newBlock2 with Hash := calculateHash newBlock2 }
      .ok { chain := marked ++ [newBlock3] }

/-- Chain reachable from NewBlockchain by a sequence of AddBlock calls, each
with its timestamp and batch; an errored append (a Go panic) stops the run. -/
def buildChain (t0 : Int) (batches : List (Int × List ℚ)) : Except GoErr Blockchain :=
  batches.foldl
    (fun acc b =>
      match acc with
      | .error e => .error e
      | .ok bc => AddBlock bc b.1 b.2)
    (.ok (NewBlockchain t0))

/-! Observers used to state concrete facts about append results. -/

/-- Outliers field of the last block of an append result, when it succeeded. -/
def lastOutliersOf (e : Except GoErr Blockchain) : Option (List ℚ) :=
  match e with
  | .ok bc => bc.chain.getLast?.map (fun b => b.Outliers)
  | .error _ => none

/-- Hash field of the last block of an append result, when it succeeded. -/
def lastHashOf (e : Except GoErr Blockchain) : Option String :=
  match e with
  | .ok bc => bc.chain.getLast?.map (fun b => b.Hash)
  | .error _ => none

/-- Values field of the last block of an append result, when it succeeded. -/
def lastValuesOf (e : Except GoErr Blockchain) : Option (List ℚ) :=
  match e with
  | .ok bc => bc.chain.getLast?.map (fun b => b.Values)
  | .error _ => none

/-- Band fields of the last block of an append result, when it succeeded. -/
def lastBandOf (e : Except GoErr Blockchain) : Option (ℚ × ℚ) :=
  match e with
  | .ok bc => bc.chain.getLast?.map (fun b => (b.TwoSDLower, b.TwoSDUpper))
  | .error _ => none

/-! Derived normal forms for the successful paths. -/

/-- Middle selection of calculateMedian on a sorted non-empty list, as a
total function. -/
def medianOfSortedD (s : List ℚ) : ℚ :=
  if s.length % 2 = 0 then (s.getD (s.length / 2 - 1) 0 + s.getD (s.length / 2) 0) / 2
  else s.getD (s.length / 2) 0

/-- Result of a successful calculateBlockStats on a block shell. -/
def finishStats (block : Block) : Block :=
  let sorted := sortFloat64s block.Values
  let lohi := calculateTwoSDRange sorted
  { block with
      Mean := calculateMean block.Values
      Values := sorted
      Median := medianOfSortedD sorted
      TwoSDLower := lohi.1
      TwoSDUpper := lohi.2
      Outliers := calculateOutliers sorted lohi.1 lohi.2 }

/-- Final hashing step of AddBlock on the statistics-populated block. -/
def setHash (block : Block) : Block :=
  { block with Hash := calculateHash block }

theorem goIndex_ok (xs : List ℚ) (i : Int) (h0 : 0 ≤ i) (h1 : i.toNat < xs.length) :
    goIndex xs i = .ok (xs.getD i.toNat 0) := by
  unfold goIndex
  rw [dif_pos ⟨h0, h1⟩, List.getD_eq_getElem _ _ h1]
  rfl

theorem medianOfSorted_ok (s : List ℚ) (h : s ≠ []) :
    medianOfSorted s = .ok (medianOfSortedD s) := by
  have hl : 0 < s.length := List.length_pos.mpr h
  unfold medianOfSorted medianOfSortedD
  by_cases hpar : (s.length : Int) % 2 = 0
  · have hnat : s.length % 2 = 0 := by omega
    have hlen2 : 2 ≤ s.length := by omega
    rw [if_pos hpar, if_pos hnat]
    have e1 : ((s.length : Int) / 2 - 1).toNat = s.length / 2 - 1 := by omega
    have e2 : ((s.length : Int) / 2).toNat = s.length / 2 := by omega
    rw [goIndex_ok s _ (by omega) (by omega), e1]
    rw [goIndex_ok s _ (by omega) (by omega), e2]
    rfl
  · have hnat : ¬ s.length % 2 = 0 := by omega
    rw [if_neg hpar, if_neg hnat]
    have e2 : ((s.length : Int) / 2).toNat = s.length / 2 := by omega
    rw [goIndex_ok s _ (by omega) (by omega), e2]

theorem sortFloat64s_perm (values : List ℚ) : (sortFloat64s values).Perm values :=
  List.perm_insertionSort _ values

theorem sortFloat64s_sorted (values : List ℚ) : List.Sorted (· ≤ ·) (sortFloat64s values) :=
  List.sorted_insertionSort _ values

theorem sortFloat64s_ne_nil (values : List ℚ) (h : values ≠ []) : sortFloat64s values ≠ [] := by
  intro hs
  have hp := sortFloat64s_perm values
  rw [hs] at hp
  exact h hp.nil_eq.symm

theorem calculateBlockStats_ok (block : Block) (h : block.Values ≠ []) :
    calculateBlockStats block = .ok (finishStats block) := by
  have hs := medianOfSorted_ok (sortFloat64s block.Values) (sortFloat64s_ne_nil _ h)
  simp only [calculateBlockStats, finishStats, hs]

theorem calculateBlockStats_err (block : Block) (h : block.Values = []) :
    calculateBlockStats block = .error .indexOutOfRange := by
  have hs : medianOfSorted (sortFloat64s ([] : List ℚ)) = .error .indexOutOfRange := rfl
  simp only [calculateBlockStats, h, hs]

theorem AddBlock_eq_ok (bc : Blockchain) (now : Int) (values : List ℚ) (prev : Block)
    (hlast : bc.chain.getLast? = some prev) (hne : values ≠ []) :
    AddBlock bc now values =
      .ok { chain := markBlocksWithOutliers bc.chain ++
              [setHash (finishStats (newShell prev now values))] } := by
  unfold AddBlock
  rw [hlast]
  simp only [calculateBlockStats_ok (newShell prev now values) (by simpa [newShell] using hne),
    setHash]

theorem AddBlock_err_empty (bc : Blockchain) (now : Int) :
    AddBlock bc now [] = .error .indexOutOfRange := by
  unfold AddBlock
  match hlast : bc.chain.getLast? with
  | none => rfl
  | some prev =>
    simp only [calculateBlockStats_err (newShell prev now []) (by simp [newShell])]

theorem calculateMean_perm (v1 v2 : List ℚ) (h : v1.Perm v2) :
    calculateMean v1 = calculateMean v2 := by
  unfold calculateMean
  rw [h.sum_eq, h.length_eq]

theorem calculateVariance_perm (v1 v2 : List ℚ) (mean : ℚ) (h : v1.Perm v2) :
    calculateVariance v1 mean = calculateVariance v2 mean := by
  unfold calculateVariance
  rw [(h.map _).sum_eq, h.length_eq]

theorem calculateTwoSDRange_perm (v1 v2 : List ℚ) (h : v1.Perm v2) :
    calculateTwoSDRange v1 = calculateTwoSDRange v2 := by
  simp only [calculateTwoSDRange]
  rw [calculateMean_perm v1 v2 h, calculateVariance_perm v1 v2 _ h]

theorem markOne_Index (b : Block) : (markOne b).Index = b.Index := by
  unfold markOne; split <;> rfl

theorem markOne_Timestamp (b : Block) : (markOne b).Timestamp = b.Timestamp := by
  unfold markOne; split <;> rfl

theorem markOne_Values (b : Block) : (markOne b).Values = b.Values := by
  unfold markOne; split <;> rfl

theorem markOne_PrevHash (b : Block) : (markOne b).PrevHash = b.PrevHash := by
  unfold markOne; split <;> rfl

theorem markOne_Mean (b : Block) : (markOne b).Mean = b.Mean := by
  unfold markOne; split <;> rfl

theorem markOne_Median (b : Block) : (markOne b).Median = b.Median := by
  unfold markOne; split <;> rfl

theorem markOne_TwoSDLower (b : Block) : (markOne b).TwoSDLower = b.TwoSDLower := by
  unfold markOne; split <;> rfl

theorem markOne_TwoSDUpper (b : Block) : (markOne b).TwoSDUpper = b.TwoSDUpper := by
  unfold markOne; split <;> rfl

theorem markOne_Outliers (b : Block) : (markOne b).Outliers = b.Outliers := by
  unfold markOne; split <;> rfl

theorem markOne_hash_of_empty (b : Block) (h : b.Outliers = []) : (markOne b).Hash = b.Hash := by
  unfold markOne
  rw [if_neg (by rw [h]; simp)]

theorem markOne_hash_of_ne (b : Block) (h : b.Outliers ≠ []) :
    (markOne b).Hash = "OUTLITER_BLOCK_HASH" := by
  unfold markOne
  rw [if_pos (List.length_pos.mpr h)]

theorem length_sha256 (msg : List Nat) : (sha256 msg).length = 32 := by
  simp [sha256, wordBytesBE]

theorem mem_wordBytesBE_lt (w : Nat) : ∀ b ∈ wordBytesBE w, b < 256 := by
  intro b hb
  simp only [wordBytesBE, List.mem_cons, List.not_mem_nil, or_false] at hb
  rcases hb with rfl | rfl | rfl | rfl <;> exact Nat.mod_lt _ (by norm_num)

theorem mem_sha256_lt (msg : List Nat) : ∀ b ∈ sha256 msg, b < 256 := by
  intro b hb
  simp only [sha256, List.mem_append] at hb
  rcases hb with ((((((h | h) | h) | h) | h) | h) | h) | h <;> exact mem_wordBytesBE_lt _ b h

theorem length_hexEncodeChars (bytes : List Nat) :
    (hexEncodeChars bytes).length = 2 * bytes.length := by
  induction bytes with
  | nil => rfl
  | cons b bs ih =>
    have step : hexEncodeChars (b :: bs) =
        hexDigit (b / 16) :: hexDigit (b % 16) :: hexEncodeChars bs := rfl
    rw [step, List.length_cons, List.length_cons, ih, List.length_cons]
    omega

theorem length_calculateHash (block : Block) : (calculateHash block).length = 64 := by
  show (hexEncodeChars (sha256 (strBytes (blockData block)))).length = 64
  rw [length_hexEncodeChars, length_sha256]

theorem hexDigit_mem_alphabet : ∀ n < 16, hexDigit n ∈ hexAlphabet := by decide

theorem mem_calculateHash_hex (block : Block) :
    ∀ c ∈ (calculateHash block).data, c ∈ hexAlphabet := by
  intro c hc
  have hc2 : c ∈ hexEncodeChars (sha256 (strBytes (blockData block))) := hc
  simp only [hexEncodeChars] at hc2
  rw [List.mem_join] at hc2
  obtain ⟨l, hl, hcl⟩ := hc2
  rw [List.mem_map] at hl
  obtain ⟨byte, hbyte, rfl⟩ := hl
  have hb : byte < 256 := mem_sha256_lt _ byte hbyte
  simp only [List.mem_cons, List.not_mem_nil, or_false] at hcl
  rcases hcl with rfl | rfl
  · exact hexDigit_mem_alphabet _ (by omega)
  · exact hexDigit_mem_alphabet _ (by omega)

theorem calculateHash_setHash (block : Block) :
    calculateHash (setHash block) = calculateHash block := rfl

theorem hash_ne_sentinel (block : Block) : calculateHash block ≠ "OUTLITER_BLOCK_HASH" := by
  intro h
  have h1 : (calculateHash block).length = 64 := length_calculateHash block
  rw [h] at h1
  exact absurd h1 (by decide)

theorem AddBlock_ok_inv (bc : Blockchain) (now : Int) (values : List ℚ) (bc2 : Blockchain)
    (h : AddBlock bc now values = .ok bc2) :
    ∃ prev, bc.chain.getLast? = some prev ∧ values ≠ [] ∧
      bc2 = { chain := markBlocksWithOutliers bc.chain ++
                [setHash (finishStats (newShell prev now values))] } := by
  match hlast : bc.chain.getLast? with
  | none => unfold AddBlock at h; rw [hlast] at h; exact absurd h (by simp)
  | some prev =>
    refine ⟨prev, rfl, ?_, ?_⟩
    · intro hv
      rw [hv, AddBlock_err_empty] at h
      exact absurd h (by simp)
    · by_cases hv : values = []
      · rw [hv, AddBlock_err_empty] at h
        exact absurd h (by simp)
      · rw [AddBlock_eq_ok bc now values prev hlast hv] at h
        injection h with h2
        exact h2.symm

/-- C2 counterexample input and others: batch whose only value outside the
band is the final 10 (mean 2, population variance 8). -/
def demoBatchOneOutlier : List ℚ := [1, 1, 1, 1, 1, 1, 1, 1, 10]

/-- Batch with two outliers, listed in descending order in the input. -/
def demoBatchTwoOutliers : List ℚ := [10, 9, 1, 1, 1, 1, 1, 1, 1, 1, 1, 1, 1, 1, 1, 1, 1, 1]

/-- Genesis block shell at timestamp t0, before its hash is assigned. -/
def genesisAt (t0 : Int) : Block :=
  { Index := 0, Timestamp := t0, Values := [], Hash := "", PrevHash := "",
    Mean := 0, Median := 0, TwoSDLower := 0, TwoSDUpper := 0, Outliers := [] }

/-- Genesis block shell at timestamp 0, before its hash is assigned. -/
def genesisBlock0 : Block :=
  { Index := 0, Timestamp := 0, Values := [], Hash := "", PrevHash := "",
    Mean := 0, Median := 0, TwoSDLower := 0, TwoSDUpper := 0, Outliers := [] }

/-- Genesis block at timestamp 0 with its computed hash. -/
def genesisHashed : Block := { genesisBlock0 with Hash := calculateHash genesisBlock0 }

theorem NewBlockchain_zero : NewBlockchain 0 = { chain := [genesisHashed] } := rfl

theorem lastOutliersOf_AddBlock (bc : Blockchain) (now : Int) (values : List ℚ) (prev : Block)
    (hlast : bc.chain.getLast? = some prev) (hne : values ≠ []) :
    lastOutliersOf (AddBlock bc now values) =
      some (calculateOutliers (sortFloat64s values)
        (calculateTwoSDRange (sortFloat64s values)).1 (calculateTwoSDRange (sortFloat64s values)).2) := by
  rw [AddBlock_eq_ok bc now values prev hlast hne]
  simp [lastOutliersOf, setHash, finishStats, newShell]

theorem lastBandOf_AddBlock (bc : Blockchain) (now : Int) (values : List ℚ) (prev : Block)
    (hlast : bc.chain.getLast? = some prev) (hne : values ≠ []) :
    lastBandOf (AddBlock bc now values) = some (calculateTwoSDRange (sortFloat64s values)) := by
  rw [AddBlock_eq_ok bc now values prev hlast hne]
  simp [lastBandOf, setHash, finishStats, newShell]

theorem lastValuesOf_AddBlock (bc : Blockchain) (now : Int) (values : List ℚ) (prev : Block)
    (hlast : bc.chain.getLast? = some prev) (hne : values ≠ []) :
    lastValuesOf (AddBlock bc now values) = some (sortFloat64s values) := by
  rw [AddBlock_eq_ok bc now values prev hlast hne]
  simp [lastValuesOf, setHash, finishStats, newShell]

theorem lastHashOf_AddBlock (bc : Blockchain) (now : Int) (values : List ℚ) (prev : Block)
    (hlast : bc.chain.getLast? = some prev) (hne : values ≠ []) :
    lastHashOf (AddBlock bc now values) =
      some (calculateHash (finishStats (newShell prev now values))) := by
  rw [AddBlock_eq_ok bc now values prev hlast hne]
  simp [lastHashOf, setHash]

/-! Claim theorems. -/

/-- C2, counterexample: AddBlock on the empty batch is not an InvalidInput
rejection; it fails with the index-out-of-range panic raised inside the
median computation. -/
theorem C2_counterexample :
    AddBlock (NewBlockchain 0) 1 [] = .error GoErr.indexOutOfRange ∧
    GoErr.indexOutOfRange ≠ GoErr.invalidInput :=
  ⟨AddBlock_err_empty _ _, by decide⟩

/-- C2, amended: Append with an empty batch is not rejected with an
InvalidInput condition; it fails with the index-out-of-range panic of
calculateMedian (after the mean was already attempted, dividing by zero),
so no block is appended and no existing block is modified; for every
non-empty batch on a non-empty chain, Append succeeds and appends exactly
one block. -/
theorem C2_empty_append_panics (bc : Blockchain) (now : Int) (values : List ℚ)
    (hchain : bc.chain ≠ []) :
    (values = [] → AddBlock bc now values = .error .indexOutOfRange) ∧
    (values ≠ [] → ∃ bc2, AddBlock bc now values = .ok bc2 ∧
        bc2.chain.length = bc.chain.length + 1) := by
  constructor
  · intro hv
    rw [hv]
    exact AddBlock_err_empty bc now
  · intro hv
    have hlast : bc.chain.getLast? = some (bc.chain.getLast hchain) :=
      List.getLast?_eq_getLast bc.chain hchain
    refine ⟨_, AddBlock_eq_ok bc now values _ hlast hv, ?_⟩
    simp [markBlocksWithOutliers]

/-- C2 witness: concrete rejected and accepted appends. -/
theorem C2_empty_append_panics_witness :
    AddBlock (NewBlockchain 0) 1 [] = .error .indexOutOfRange ∧
    (AddBlock (NewBlockchain 0) 1 [5]).isOk = true := by
  constructor
  · exact (C2_empty_append_panics (NewBlockchain 0) 1 [] (by simp [NewBlockchain])).1 rfl
  · obtain ⟨bc2, h2, -⟩ :=
      (C2_empty_append_panics (NewBlockchain 0) 1 [5] (by simp [NewBlockchain])).2 (by simp)
    rw [h2]
    rfl

/-- C5: for the appended block, the band is the block's mean plus or minus
twice the population standard deviation (square root of the variance that
divides the squared deviations by the count), and the band contains the
mean. -/
theorem C5_band_population_sd (bc : Blockchain) (now : Int) (values : List ℚ) (bc2 : Blockchain)
    (h : AddBlock bc now values = .ok bc2) (b : Block) (hb : bc2.chain.getLast? = some b) :
    b.Mean = calculateMean values ∧
    b.TwoSDLower = b.Mean - 2 * goSqrt (calculateVariance b.Values b.Mean) ∧
    b.TwoSDUpper = b.Mean + 2 * goSqrt (calculateVariance b.Values b.Mean) ∧
    b.TwoSDLower ≤ b.Mean ∧ b.Mean ≤ b.TwoSDUpper := by
  obtain ⟨prev, hlast, hne, rfl⟩ := AddBlock_ok_inv bc now values bc2 h
  rw [List.getLast?_concat] at hb
  injection hb with hb2
  subst hb2
  have hmean : calculateMean (sortFloat64s values) = calculateMean values :=
    calculateMean_perm _ _ (sortFloat64s_perm values)
  have hM : (setHash (finishStats (newShell prev now values))).Mean = calculateMean values := rfl
  have hV : (setHash (finishStats (newShell prev now values))).Values = sortFloat64s values := rfl
  have hL : (setHash (finishStats (newShell prev now values))).TwoSDLower =
      (calculateTwoSDRange (sortFloat64s values)).1 := rfl
  have hU : (setHash (finishStats (newShell prev now values))).TwoSDUpper =
      (calculateTwoSDRange (sortFloat64s values)).2 := rfl
  rw [hM, hV, hL, hU]
  have hsq : 0 ≤ goSqrt (calculateVariance (sortFloat64s values) (calculateMean values)) :=
    Rat.sqrt_nonneg _
  refine ⟨rfl, ?_, ?_, ?_, ?_⟩
  · simp only [calculateTwoSDRange, hmean]
  · simp only [calculateTwoSDRange, hmean]
  · simp only [calculateTwoSDRange, hmean]
    linarith
  · simp only [calculateTwoSDRange, hmean]
    linarith

/-- C5 witness: the batch [1,1,1,1,1,1,1,1,10] has mean 2, population
variance 8, and a band containing the mean. -/
theorem C5_band_population_sd_witness :
    lastBandOf (AddBlock (NewBlockchain 0) 1 demoBatchOneOutlier) = some (-2, 6) ∧
    (-2 : ℚ) ≤ 2 ∧ (2 : ℚ) ≤ 6 := by
  have hlast : (NewBlockchain 0).chain.getLast? = some genesisHashed := rfl
  have hne : demoBatchOneOutlier ≠ [] := by simp [demoBatchOneOutlier]
  have h := AddBlock_eq_ok (NewBlockchain 0) 1 demoBatchOneOutlier genesisHashed hlast hne
  have hcons := C5_band_population_sd (NewBlockchain 0) 1 demoBatchOneOutlier _ h
    (setHash (finishStats (newShell genesisHashed 1 demoBatchOneOutlier)))
    (by rw [List.getLast?_concat])
  have hband := lastBandOf_AddBlock (NewBlockchain 0) 1 demoBatchOneOutlier genesisHashed hlast hne
  have hsorted : sortFloat64s demoBatchOneOutlier = [1, 1, 1, 1, 1, 1, 1, 1, 10] := by decide
  have hnum : calculateTwoSDRange ([1, 1, 1, 1, 1, 1, 1, 1, 10] : List ℚ) = (-2, 6) := by
    norm_num [calculateTwoSDRange, calculateVariance, calculateMean, goSqrt, Rat.sqrt,
      Int.sqrt, show Int.toNat 8 = 8 from rfl]
  refine ⟨?_, by norm_num, by norm_num⟩
  rw [hband, hsorted, hnum]

/-- C6: the median of a non-empty batch is the middle element (odd count) or
the mean of the two central elements (even count) of any ascending-sorted
permutation of the batch, and the median is invariant under permutation of
the input batch. -/
theorem C6_median_sorted_middle (values : List ℚ) (hne : values ≠ []) :
    (∀ s : List ℚ, s.Perm values → List.Sorted (· ≤ ·) s →
       calculateMedian values =
         .ok (if values.length % 2 = 0 then
                (s.getD (values.length / 2 - 1) 0 + s.getD (values.length / 2) 0) / 2
              else s.getD (values.length / 2) 0)) ∧
    (∀ values2 : List ℚ, values2.Perm values → calculateMedian values2 = calculateMedian values) := by
  constructor
  · intro s hperm hsort
    have hs : s = sortFloat64s values :=
      List.eq_of_perm_of_sorted (hperm.trans (sortFloat64s_perm values).symm) hsort
        (sortFloat64s_sorted values)
    subst hs
    unfold calculateMedian
    rw [medianOfSorted_ok _ (sortFloat64s_ne_nil _ hne)]
    unfold medianOfSortedD
    rw [(sortFloat64s_perm values).length_eq]
  · intro values2 hperm
    unfold calculateMedian
    rw [show sortFloat64s values2 = sortFloat64s values from
      List.eq_of_perm_of_sorted (((sortFloat64s_perm values2).trans hperm).trans
        (sortFloat64s_perm values).symm) (sortFloat64s_sorted _) (sortFloat64s_sorted _)]

/-- C6 witness: the median of [3,1,2] is 2, also after permuting the batch. -/
theorem C6_median_sorted_middle_witness :
    calculateMedian [3, 1, 2] = .ok 2 ∧ calculateMedian [2, 3, 1] = .ok (2 : ℚ) := by
  have h1 := (C6_median_sorted_middle [3, 1, 2] (by simp)).1 [1, 2, 3] (by decide) (by decide)
  have h2 := (C6_median_sorted_middle [3, 1, 2] (by simp)).2 [2, 3, 1] (by decide)
  norm_num at h1
  exact ⟨h1, h2.trans h1⟩

/-- C7: the fingerprint is the hex encoding of the SHA-256 digest of the
concatenation of the nine fields in fixed order; it is 64 lowercase hex
characters; and it is a function of those nine fields only (the Hash field
itself does not contribute), so identical field values give identical
fingerprints. -/
theorem C7_fingerprint_digest :
    (∀ block : Block, calculateHash block = hexEncode (sha256 (strBytes (blockData block)))) ∧
    (∀ block : Block, (calculateHash block).length = 64 ∧
        ∀ c ∈ (calculateHash block).data, c ∈ hexAlphabet) ∧
    (∀ b1 b2 : Block, b1.Index = b2.Index → b1.Timestamp = b2.Timestamp →
       b1.Values = b2.Values → b1.PrevHash = b2.PrevHash → b1.Mean = b2.Mean →
       b1.Median = b2.Median → b1.TwoSDLower = b2.TwoSDLower → b1.TwoSDUpper = b2.TwoSDUpper →
       b1.Outliers = b2.Outliers → calculateHash b1 = calculateHash b2) := by
  refine ⟨fun _ => rfl, fun block => ⟨length_calculateHash block, mem_calculateHash_hex block⟩, ?_⟩
  intro b1 b2 h1 h2 h3 h4 h5 h6 h7 h8 h9
  unfold calculateHash blockData
  rw [h1, h2, h3, h4, h5, h6, h7, h8, h9]

/-- Demo block for the C7 witness. -/
def hashDemoBlockA : Block :=
  { Index := 1, Timestamp := 2, Values := [3], Hash := "aaa", PrevHash := "p",
    Mean := 3, Median := 3, TwoSDLower := 3, TwoSDUpper := 3, Outliers := [] }

/-- Demo block for the C7 witness, differing only in its Hash field. -/
def hashDemoBlockB : Block := { hashDemoBlockA with Hash := "bbb" }

/-- C7 witness: two blocks equal on the nine hashed fields but with
different Hash fields have the same fingerprint. -/
theorem C7_fingerprint_digest_witness :
    calculateHash hashDemoBlockA = calculateHash hashDemoBlockB :=
  C7_fingerprint_digest.2.2 _ _ rfl rfl rfl rfl rfl rfl rfl rfl rfl

theorem chainGet_marked (bc : Blockchain) (nb : Block) (i : Nat) (hi : i < bc.chain.length)
    (hi2 : i < (markBlocksWithOutliers bc.chain ++ [nb]).length) :
    (markBlocksWithOutliers bc.chain ++ [nb]).get ⟨i, hi2⟩ = markOne (bc.chain.get ⟨i, hi⟩) := by
  have hlen : i < (markBlocksWithOutliers bc.chain).length := by
    simpa [markBlocksWithOutliers] using hi
  rw [List.get_append i hlen]
  simp [markBlocksWithOutliers]

theorem demoSort1 : sortFloat64s demoBatchOneOutlier = [1, 1, 1, 1, 1, 1, 1, 1, 10] := by decide

theorem demoBand1 : calculateTwoSDRange ([1, 1, 1, 1, 1, 1, 1, 1, 10] : List ℚ) = (-2, 6) := by
  norm_num [calculateTwoSDRange, calculateVariance, calculateMean, goSqrt, Rat.sqrt,
    Int.sqrt, show Int.toNat 8 = 8 from rfl]

theorem demoOutliers1 :
    calculateOutliers (sortFloat64s demoBatchOneOutlier)
      (calculateTwoSDRange (sortFloat64s demoBatchOneOutlier)).1
      (calculateTwoSDRange (sortFloat64s demoBatchOneOutlier)).2 = [10] := by
  rw [demoSort1, demoBand1]
  norm_num [calculateOutliers]

/-- Appended block of the first demo append (batch with one outlier). -/
def demoAppended1 : Block := setHash (finishStats (newShell genesisHashed 1 demoBatchOneOutlier))

/-- Chain after the first demo append. -/
def demoChain1 : Blockchain :=
  { chain := markBlocksWithOutliers (NewBlockchain 0).chain ++ [demoAppended1] }

/-- Appended block of the second demo append. -/
def demoAppended2 : Block := setHash (finishStats (newShell demoAppended1 2 demoBatchOneOutlier))

/-- Chain after the second demo append. -/
def demoChain2 : Blockchain :=
  { chain := markBlocksWithOutliers demoChain1.chain ++ [demoAppended2] }

theorem demoAppended1_Outliers : demoAppended1.Outliers = [10] := demoOutliers1

theorem demoStep1 : AddBlock (NewBlockchain 0) 1 demoBatchOneOutlier = .ok demoChain1 :=
  AddBlock_eq_ok _ _ _ genesisHashed rfl (by simp [demoBatchOneOutlier])

theorem demoChain1_getLast : demoChain1.chain.getLast? = some demoAppended1 := by
  show (markBlocksWithOutliers (NewBlockchain 0).chain ++ [demoAppended1]).getLast? = _
  rw [List.getLast?_concat]

theorem demoStep2 : AddBlock demoChain1 2 demoBatchOneOutlier = .ok demoChain2 :=
  AddBlock_eq_ok _ _ _ demoAppended1 demoChain1_getLast (by simp [demoBatchOneOutlier])

/-- C3, counterexample: for the batch [10, 9, 1, ..., 1] the appended block's
outliers come out as [9, 10] (the order of the sorted values), while the
order-preserving outside-the-band subsequence of the original batch, which
the claim prescribes, is [10, 9]. -/
theorem C3_counterexample :
    lastOutliersOf (AddBlock (NewBlockchain 0) 1 demoBatchTwoOutliers) = some [9, 10] ∧
    lastBandOf (AddBlock (NewBlockchain 0) 1 demoBatchTwoOutliers) = some (-61/18, 131/18) ∧
    demoBatchTwoOutliers.filter (fun v => decide (v < -61/18 ∨ 131/18 < v)) = [10, 9] ∧
    ([9, 10] : List ℚ) ≠ [10, 9] := by
  have hlast : (NewBlockchain 0).chain.getLast? = some genesisHashed := rfl
  have hne : demoBatchTwoOutliers ≠ [] := by simp [demoBatchTwoOutliers]
  have hsort : sortFloat64s demoBatchTwoOutliers =
      [1, 1, 1, 1, 1, 1, 1, 1, 1, 1, 1, 1, 1, 1, 1, 1, 9, 10] := by decide
  have hband : calculateTwoSDRange
      ([1, 1, 1, 1, 1, 1, 1, 1, 1, 1, 1, 1, 1, 1, 1, 1, 9, 10] : List ℚ) = (-61/18, 131/18) := by
    norm_num [calculateTwoSDRange, calculateVariance, calculateMean, goSqrt, Rat.sqrt,
      Int.sqrt, show Int.toNat 2321 = 2321 from rfl]
  refine ⟨?_, ?_, ?_, by norm_num⟩
  · rw [lastOutliersOf_AddBlock _ _ _ _ hlast hne, hsort, hband]
    norm_num [calculateOutliers]
  · rw [lastBandOf_AddBlock _ _ _ _ hlast hne, hsort, hband]
  · norm_num [demoBatchTwoOutliers]

/-- C3, amended: the outliers of the appended block are exactly the elements
of the block's stored (sorted) values strictly outside the band, in the
sorted order; as a multiset they agree with the order-preserving
outside-the-band subsequence of the original batch, but they are stored in
ascending order, not in the batch's original order. -/
theorem C3_outliers_of_sorted (bc : Blockchain) (now : Int) (values : List ℚ) (bc2 : Blockchain)
    (h : AddBlock bc now values = .ok bc2) (b : Block) (hb : bc2.chain.getLast? = some b) :
    b.Values = sortFloat64s values ∧
    b.Outliers = b.Values.filter (fun v => decide (v < b.TwoSDLower ∨ b.TwoSDUpper < v)) ∧
    (b.Outliers).Perm (values.filter (fun v => decide (v < b.TwoSDLower ∨ b.TwoSDUpper < v))) ∧
    List.Sorted (· ≤ ·) b.Outliers := by
  obtain ⟨prev, hlast, hne, rfl⟩ := AddBlock_ok_inv bc now values bc2 h
  rw [List.getLast?_concat] at hb
  injection hb with hb2
  subst hb2
  refine ⟨rfl, rfl, ?_, ?_⟩
  · exact (sortFloat64s_perm values).filter _
  · exact List.Pairwise.filter _ (sortFloat64s_sorted values)

/-- C3 witness: the appended block for the demo batch stores sorted values
and its outliers [10] are sorted. -/
theorem C3_outliers_of_sorted_witness :
    lastValuesOf (AddBlock (NewBlockchain 0) 1 demoBatchOneOutlier) =
      some [1, 1, 1, 1, 1, 1, 1, 1, 10] ∧
    demoAppended1.Outliers = [10] ∧
    List.Sorted (· ≤ ·) demoAppended1.Outliers := by
  have hc := C3_outliers_of_sorted (NewBlockchain 0) 1 demoBatchOneOutlier demoChain1 demoStep1
    demoAppended1 demoChain1_getLast
  refine ⟨?_, demoAppended1_Outliers, hc.2.2.2⟩
  rw [lastValuesOf_AddBlock (NewBlockchain 0) 1 demoBatchOneOutlier genesisHashed rfl
    (by simp [demoBatchOneOutlier]), demoSort1]

/-- C1, counterexample: appending the demo batch, whose outlier set [10] is
non-empty, leaves the newly appended block's fingerprint equal to its
computed digest, not the sentinel, so the claim's "including the block
appended by that very call" fails. -/
theorem C1_counterexample :
    lastOutliersOf (AddBlock (NewBlockchain 0) 1 demoBatchOneOutlier) = some [10] ∧
    lastHashOf (AddBlock (NewBlockchain 0) 1 demoBatchOneOutlier) ≠ some "OUTLITER_BLOCK_HASH" := by
  constructor
  · rw [lastOutliersOf_AddBlock (NewBlockchain 0) 1 demoBatchOneOutlier genesisHashed rfl
      (by simp [demoBatchOneOutlier]), demoOutliers1]
  · rw [lastHashOf_AddBlock (NewBlockchain 0) 1 demoBatchOneOutlier genesisHashed rfl
      (by simp [demoBatchOneOutlier])]
    intro hcontra
    injection hcontra with h2
    exact hash_ne_sentinel _ h2

/-- C1, amended: the re-marking pass of an append covers exactly the blocks
that existed before the call: every pre-existing block with non-empty
outliers has the sentinel fingerprint afterwards, while the newly appended
block keeps its computed digest, which is never equal to the sentinel (it
only receives the sentinel during a later append's re-marking). -/
theorem C1_remarking_excludes_new (bc : Blockchain) (now : Int) (values : List ℚ)
    (bc2 : Blockchain) (h : AddBlock bc now values = .ok bc2) :
    (∀ i (hi : i < bc.chain.length) (hi2 : i < bc2.chain.length),
        (bc.chain.get ⟨i, hi⟩).Outliers ≠ [] →
        (bc2.chain.get ⟨i, hi2⟩).Hash = "OUTLITER_BLOCK_HASH") ∧
    (∀ b, bc2.chain.getLast? = some b →
        b.Hash = calculateHash b ∧ b.Hash ≠ "OUTLITER_BLOCK_HASH") := by
  obtain ⟨prev, hlast, hne, rfl⟩ := AddBlock_ok_inv bc now values bc2 h
  constructor
  · intro i hi hi2 hout
    rw [chainGet_marked bc _ i hi hi2]
    exact markOne_hash_of_ne _ hout
  · intro b hb
    rw [List.getLast?_concat] at hb
    injection hb with hb2
    subst hb2
    exact ⟨rfl, hash_ne_sentinel _⟩

/-- C1 witness: after a first append whose block has outliers [10], the
block keeps a non-sentinel digest; after a second append, that block (at
position 1) carries the sentinel. -/
theorem C1_remarking_excludes_new_witness :
    lastHashOf (.ok demoChain1) ≠ some "OUTLITER_BLOCK_HASH" ∧
    (demoChain2.chain.get? 1).map (fun b => b.Hash) = some "OUTLITER_BLOCK_HASH" := by
  have hc1 := C1_remarking_excludes_new (NewBlockchain 0) 1 demoBatchOneOutlier demoChain1 demoStep1
  have hc2 := C1_remarking_excludes_new demoChain1 2 demoBatchOneOutlier demoChain2 demoStep2
  constructor
  · have hlast := demoChain1_getLast
    have hne := (hc1.2 demoAppended1 hlast).2
    simp only [lastHashOf, hlast, Option.map_some']
    intro hcontra
    injection hcontra with h2
    exact hne h2
  · have hi : 1 < demoChain1.chain.length := by
      rw [show demoChain1.chain.length = 2 from rfl]
      omega
    have hi2 : 1 < demoChain2.chain.length := by
      rw [show demoChain2.chain.length = 3 from rfl]
      omega
    have hout : (demoChain1.chain.get ⟨1, hi⟩).Outliers ≠ [] := by
      have hget : demoChain1.chain.get ⟨1, hi⟩ = demoAppended1 := rfl
      rw [hget, demoAppended1_Outliers]
      simp
    have hsent := hc2.1 1 hi hi2 hout
    rw [List.get?_eq_get hi2, Option.map_some', hsent]

/-- C8: an append changes, among the pre-existing blocks, only the Hash
field of blocks whose outliers are non-empty: every other field of every
pre-existing block is unchanged, and a pre-existing block with empty
outliers keeps its Hash. -/
theorem C8_append_frame (bc : Blockchain) (now : Int) (values : List ℚ) (bc2 : Blockchain)
    (h : AddBlock bc now values = .ok bc2) :
    bc2.chain.length = bc.chain.length + 1 ∧
    ∀ i (hi : i < bc.chain.length) (hi2 : i < bc2.chain.length),
      ((bc2.chain.get ⟨i, hi2⟩).Index = (bc.chain.get ⟨i, hi⟩).Index ∧
       (bc2.chain.get ⟨i, hi2⟩).Timestamp = (bc.chain.get ⟨i, hi⟩).Timestamp ∧
       (bc2.chain.get ⟨i, hi2⟩).Values = (bc.chain.get ⟨i, hi⟩).Values ∧
       (bc2.chain.get ⟨i, hi2⟩).PrevHash = (bc.chain.get ⟨i, hi⟩).PrevHash ∧
       (bc2.chain.get ⟨i, hi2⟩).Mean = (bc.chain.get ⟨i, hi⟩).Mean ∧
       (bc2.chain.get ⟨i, hi2⟩).Median = (bc.chain.get ⟨i, hi⟩).Median ∧
       (bc2.chain.get ⟨i, hi2⟩).TwoSDLower = (bc.chain.get ⟨i, hi⟩).TwoSDLower ∧
       (bc2.chain.get ⟨i, hi2⟩).TwoSDUpper = (bc.chain.get ⟨i, hi⟩).TwoSDUpper ∧
       (bc2.chain.get ⟨i, hi2⟩).Outliers = (bc.chain.get ⟨i, hi⟩).Outliers) ∧
      ((bc.chain.get ⟨i, hi⟩).Outliers = [] →
        (bc2.chain.get ⟨i, hi2⟩).Hash = (bc.chain.get ⟨i, hi⟩).Hash) := by
  obtain ⟨prev, hlast, hne, rfl⟩ := AddBlock_ok_inv bc now values bc2 h
  refine ⟨by simp [markBlocksWithOutliers], ?_⟩
  intro i hi hi2
  rw [chainGet_marked bc _ i hi hi2]
  exact ⟨⟨markOne_Index _, markOne_Timestamp _, markOne_Values _, markOne_PrevHash _,
    markOne_Mean _, markOne_Median _, markOne_TwoSDLower _, markOne_TwoSDUpper _,
    markOne_Outliers _⟩, fun he => markOne_hash_of_empty _ he⟩

/-- C8 witness: after the first demo append, the genesis block (empty
outliers) keeps its original hash and the chain has two blocks. -/
theorem C8_append_frame_witness :
    demoChain1.chain.length = 2 ∧
    (demoChain1.chain.get? 0).map (fun b => b.Hash) = some genesisHashed.Hash := by
  have hc := C8_append_frame (NewBlockchain 0) 1 demoBatchOneOutlier demoChain1 demoStep1
  have hlen1 : (NewBlockchain 0).chain.length = 1 := rfl
  constructor
  · rw [hc.1, hlen1]
  · have hi : 0 < (NewBlockchain 0).chain.length := by rw [hlen1]; omega
    have hi2 : 0 < demoChain1.chain.length := by rw [hc.1]; omega
    have hout : ((NewBlockchain 0).chain.get ⟨0, hi⟩).Outliers = [] := rfl
    have h0 := (hc.2 0 hi hi2).2 hout
    rw [List.get?_eq_get hi2, Option.map_some', h0]
    rfl

theorem buildChain_append_one (t0 : Int) (bs : List (Int × List ℚ)) (a : Int × List ℚ) :
    buildChain t0 (bs ++ [a]) =
      match buildChain t0 bs with
      | .error e => .error e
      | .ok bc => AddBlock bc a.1 a.2 := by
  unfold buildChain
  rw [List.foldl_append]
  rfl

theorem buildChain_ok_of_append (t0 : Int) (bs : List (Int × List ℚ)) (a : Int × List ℚ)
    (bc : Blockchain) (h : buildChain t0 (bs ++ [a]) = .ok bc) :
    ∃ bc1, buildChain t0 bs = .ok bc1 ∧ AddBlock bc1 a.1 a.2 = .ok bc := by
  rw [buildChain_append_one] at h
  match hb : buildChain t0 bs with
  | .error e => rw [hb] at h; exact absurd h (by simp)
  | .ok bc1 => rw [hb] at h; exact ⟨bc1, rfl, h⟩

theorem buildChain_length (t0 : Int) (batches : List (Int × List ℚ)) (bc : Blockchain)
    (hok : buildChain t0 batches = .ok bc) : bc.chain.length = batches.length + 1 := by
  induction batches using List.reverseRecOn generalizing bc with
  | nil =>
    injection hok with h
    rw [← h]
    rfl
  | append_singleton bs a ih =>
    obtain ⟨bc1, h1, h2⟩ := buildChain_ok_of_append t0 bs a bc hok
    obtain ⟨prev, hlast, hne, rfl⟩ := AddBlock_ok_inv _ _ _ _ h2
    simp [markBlocksWithOutliers, ih bc1 h1]

theorem chainGet_appended (c : List Block) (nb : Block)
    (hi : c.length < (markBlocksWithOutliers c ++ [nb]).length) :
    (markBlocksWithOutliers c ++ [nb]).get ⟨c.length, hi⟩ = nb := by
  have hlen : (markBlocksWithOutliers c).length = c.length := by simp [markBlocksWithOutliers]
  rw [List.get_eq_getElem, List.getElem_append_right (le_of_eq hlen)]
  simp [hlen]

theorem buildChain_indexes (t0 : Int) (batches : List (Int × List ℚ)) (bc : Blockchain)
    (hok : buildChain t0 batches = .ok bc) :
    ∀ i (hi : i < bc.chain.length), (bc.chain.get ⟨i, hi⟩).Index = (i : Int) := by
  induction batches using List.reverseRecOn generalizing bc with
  | nil =>
    injection hok with h
    rw [← h]
    intro i hi
    match i, hi with
    | 0, _ => rfl
  | append_singleton bs a ih =>
    obtain ⟨bc1, h1, h2⟩ := buildChain_ok_of_append t0 bs a bc hok
    obtain ⟨prev, hlast, hne, rfl⟩ := AddBlock_ok_inv _ _ _ _ h2
    intro i hi
    by_cases hlt : i < bc1.chain.length
    · rw [chainGet_marked bc1 _ i hlt hi, markOne_Index]
      exact ih bc1 h1 i hlt
    · have hlen1 := buildChain_length t0 bs bc1 h1
      have hi' : i = bc1.chain.length := by
        have h2 : i < bc1.chain.length + 1 := by simpa [markBlocksWithOutliers] using hi
        omega
      subst hi'
      rw [chainGet_appended bc1.chain _ hi]
      have hne1 : bc1.chain ≠ [] := by
        intro hcon
        rw [hcon] at hlen1
        simp at hlen1
      have hprev : prev = bc1.chain.getLast hne1 := by
        rw [List.getLast?_eq_getLast bc1.chain hne1] at hlast
        injection hlast with h3
        exact h3.symm
      have hIdxNew : (setHash (finishStats (newShell prev a.1 a.2))).Index = prev.Index + 1 := rfl
      rw [hIdxNew, hprev, List.getLast_eq_get]
      rw [ih bc1 h1 (bc1.chain.length - 1) (by omega)]
      omega

theorem buildChain_prevHash (t0 : Int) (batches : List (Int × List ℚ)) (bc : Blockchain)
    (hok : buildChain t0 batches = .ok bc) :
    ∀ n (hn : n < bc.chain.length), 1 ≤ n →
      some (bc.chain.get ⟨n, hn⟩).PrevHash = lastHashOf (buildChain t0 (batches.take (n - 1))) := by
  induction batches using List.reverseRecOn generalizing bc with
  | nil =>
    injection hok with h
    rw [← h]
    intro n hn hge
    rw [show (NewBlockchain t0).chain.length = 1 from rfl] at hn
    omega
  | append_singleton bs a ih =>
    obtain ⟨bc1, h1, h2⟩ := buildChain_ok_of_append t0 bs a bc hok
    obtain ⟨prev, hlast, hne, rfl⟩ := AddBlock_ok_inv _ _ _ _ h2
    intro n hn hge
    have hlen1 := buildChain_length t0 bs bc1 h1
    by_cases hlt : n < bc1.chain.length
    · rw [chainGet_marked bc1 _ n hlt hn, markOne_PrevHash]
      have htake : (bs ++ [a]).take (n - 1) = bs.take (n - 1) :=
        List.take_append_of_le_length (by omega)
      rw [htake]
      exact ih bc1 h1 n hlt hge
    · have hn' : n = bc1.chain.length := by
        have h3 : n < bc1.chain.length + 1 := by simpa [markBlocksWithOutliers] using hn
        omega
      subst hn'
      rw [chainGet_appended bc1.chain _ hn]
      have hPrev : (setHash (finishStats (newShell prev a.1 a.2))).PrevHash = prev.Hash := rfl
      rw [hPrev]
      have htake : (bs ++ [a]).take (bc1.chain.length - 1) = bs := by
        rw [show bc1.chain.length - 1 = bs.length by omega]
        exact List.take_left bs [a]
      rw [htake, h1]
      simp [lastHashOf, hlast]

theorem buildChain_all_sorted (t0 : Int) (batches : List (Int × List ℚ)) (bc : Blockchain)
    (hok : buildChain t0 batches = .ok bc) :
    ∀ b ∈ bc.chain, List.Sorted (· ≤ ·) b.Values := by
  induction batches using List.reverseRecOn generalizing bc with
  | nil =>
    injection hok with h
    rw [← h]
    intro b hb
    have hb2 : b ∈ [{ genesisAt t0 with Hash := calculateHash (genesisAt t0) }] := hb
    rw [List.mem_singleton] at hb2
    subst hb2
    exact List.sorted_nil
  | append_singleton bs a ih =>
    obtain ⟨bc1, h1, h2⟩ := buildChain_ok_of_append t0 bs a bc hok
    obtain ⟨prev, hlast, hne, rfl⟩ := AddBlock_ok_inv _ _ _ _ h2
    intro b hb
    have hb2 : b ∈ markBlocksWithOutliers bc1.chain ++
        [setHash (finishStats (newShell prev a.1 a.2))] := hb
    rw [List.mem_append] at hb2
    rcases hb2 with hb2 | hb2
    · rw [markBlocksWithOutliers, List.mem_map] at hb2
      obtain ⟨y, hy, rfl⟩ := hb2
      rw [markOne_Values]
      exact ih bc1 h1 y hy
    · rw [List.mem_singleton] at hb2
      subst hb2
      exact sortFloat64s_sorted a.2

/-- C4: in every chain reachable by successful appends from NewBlockchain,
the block at position i carries index i, and every non-genesis block's
PrevHash is the Hash that the then-last block carried at the moment its
append started, i.e. before that append's own re-marking could overwrite
it. -/
theorem C4_chain_integrity (t0 : Int) (batches : List (Int × List ℚ)) (bc : Blockchain)
    (hok : buildChain t0 batches = .ok bc) :
    (∀ i (hi : i < bc.chain.length), (bc.chain.get ⟨i, hi⟩).Index = (i : Int)) ∧
    (∀ n (hn : n < bc.chain.length), 1 ≤ n →
       some (bc.chain.get ⟨n, hn⟩).PrevHash =
         lastHashOf (buildChain t0 (batches.take (n - 1)))) :=
  ⟨buildChain_indexes t0 batches bc hok, buildChain_prevHash t0 batches bc hok⟩

/-- Appended block of the single-batch witness chain. -/
def demoAppendedW : Block := setHash (finishStats (newShell genesisHashed 1 [5]))

/-- Witness chain built from one batch [5]. -/
def demoChainW : Blockchain :=
  { chain := markBlocksWithOutliers (NewBlockchain 0).chain ++ [demoAppendedW] }

theorem demoStepW : buildChain 0 [(1, [5])] = .ok demoChainW := by
  show AddBlock (NewBlockchain 0) 1 [5] = .ok demoChainW
  exact AddBlock_eq_ok _ _ _ genesisHashed rfl (by simp)

/-- C4 witness: in the one-append chain, indices are 0 and 1 and block 1's
PrevHash is the genesis fingerprint. -/
theorem C4_chain_integrity_witness :
    (demoChainW.chain.get? 0).map (fun b => b.Index) = some 0 ∧
    (demoChainW.chain.get? 1).map (fun b => b.Index) = some 1 ∧
    (demoChainW.chain.get? 1).map (fun b => b.PrevHash) = some (calculateHash genesisBlock0) := by
  have hc := C4_chain_integrity 0 [(1, [5])] demoChainW demoStepW
  have hlen : demoChainW.chain.length = 2 := rfl
  have h0 : 0 < demoChainW.chain.length := by omega
  have h1 : 1 < demoChainW.chain.length := by omega
  refine ⟨?_, ?_, ?_⟩
  · rw [List.get?_eq_get h0, Option.map_some', hc.1 0 h0]
    norm_num
  · rw [List.get?_eq_get h1, Option.map_some', hc.1 1 h1]
    norm_num
  · have hp := hc.2 1 h1 (by omega)
    rw [show (([((1 : Int), ([5] : List ℚ))].take (1 - 1))) = [] from rfl] at hp
    rw [show buildChain 0 [] = .ok (NewBlockchain 0) from rfl] at hp
    rw [show lastHashOf (.ok (NewBlockchain 0)) = some genesisHashed.Hash from rfl] at hp
    rw [List.get?_eq_get h1, Option.map_some']
    exact hp.trans (by rfl)

/-- C9: the appended block stores its batch sorted ascending (the in-place
median sort is visible in the stored values): its Values field is the
ascending sort of the input batch, a permutation of it; and every block of
every reachable chain has ascending-sorted Values. -/
theorem C9_values_sorted (t0 : Int) (batches : List (Int × List ℚ)) (bc : Blockchain)
    (hok : buildChain t0 batches = .ok bc) :
    (∀ b ∈ bc.chain, List.Sorted (· ≤ ·) b.Values) ∧
    (∀ bc0 now values bc2, AddBlock bc0 now values = .ok bc2 →
       ∀ b, bc2.chain.getLast? = some b →
         b.Values = sortFloat64s values ∧ b.Values.Perm values ∧
         List.Sorted (· ≤ ·) b.Values) := by
  refine ⟨buildChain_all_sorted t0 batches bc hok, ?_⟩
  intro bc0 now values bc2 hAdd b hb
  obtain ⟨prev, hlast, hne, rfl⟩ := AddBlock_ok_inv _ _ _ _ hAdd
  rw [List.getLast?_concat] at hb
  injection hb with hb2
  subst hb2
  exact ⟨rfl, sortFloat64s_perm values, sortFloat64s_sorted values⟩

/-- C9 witness: the block appended for the unsorted batch [3,1,2] stores
[1,2,3]. -/
theorem C9_values_sorted_witness :
    lastValuesOf (AddBlock (NewBlockchain 0) 1 [3, 1, 2]) = some [1, 2, 3] ∧
    List.Sorted (· ≤ ·) ([1, 2, 3] : List ℚ) := by
  have hc := (C9_values_sorted 0 [] (NewBlockchain 0) rfl).2
  have hne : ([3, 1, 2] : List ℚ) ≠ [] := by simp
  have hstep := AddBlock_eq_ok (NewBlockchain 0) 1 [3, 1, 2] genesisHashed rfl hne
  have hres := hc (NewBlockchain 0) 1 [3, 1, 2] _ hstep
    (setHash (finishStats (newShell genesisHashed 1 [3, 1, 2])))
    (List.getLast?_concat _)
  have hsort : sortFloat64s [3, 1, 2] = ([1, 2, 3] : List ℚ) := by decide
  constructor
  · rw [lastValuesOf_AddBlock (NewBlockchain 0) 1 [3, 1, 2] genesisHashed rfl hne, hsort]
  · have hs := hres.2.2
    rw [hres.1, hsort] at hs
    exact hs
